import Mathlib

/-!
Verification of the columnar filter executor of perfetto4ic
(src/trace_processor/db/query_executor.cc).

The executor itself (FilterColumn, BoundedColumnFilter, IndexedColumnFilter,
IndexFilterHelper, FilterLegacy) is translated directly from
query_executor.cc.  The collaborating data structures (RowMap, BitVector,
NumericStorage, the overlay interface and NullOverlay, Column/Table) are not
part of the provided sources; they are modelled from the specification
(spec sections 3, 4.4-4.7 and 6), as noted on each definition.

Representation choices:
  - A bit vector is a List Bool; position i holds bit i.
  - A row map is its sorted list of set row indices (the abstract set
    semantics of spec section 3; the Range / Bitmap representations of the
    source are transparent at this level).
  - Machine integers are Nat / Int; sizes in the source are uint32 and all
    quantities stay far below 2^32, so no wrap-around modelling is needed.
-/

namespace Perfetto

/-- Modelled from the spec: filter operators, op in {=, !=, <, <=, >, >=, IS NULL, IS NOT NULL}. -/
inductive FilterOp where
  | eq | ne | lt | le | gt | ge | isNull | isNotNull
deriving DecidableEq, Repr

/-- Modelled from the spec: the narrowed, overlay-facing version of an operator
with just enough distinction to decide null-handling. -/
inductive OverlayOp where
  | isNull | isNotNull | other
deriving DecidableEq, Repr

/-- Modelled from the spec: deterministic translation constraint op to overlay op;
only the null-handling distinctions survive. -/
def FilterOpToOverlayOp : FilterOp → OverlayOp
  | .isNull => .isNull
  | .isNotNull => .isNotNull
  | _ => .other

/-- Modelled from the spec: value type tags of an SqlValue payload. -/
inductive SqlType where
  | nullType | long | doubleType | stringType
deriving DecidableEq, Repr

/-- Modelled from the spec: a constraint is a triple (column index, op, typed value).
Values are numeric here (the new pipeline only binds numeric storage). -/
structure Constraint where
  colIdx : Nat
  op : FilterOp
  value : Int
  valueType : SqlType := SqlType.long
deriving DecidableEq, Repr

/-- Modelled from the spec: a half-open interval of indices.  The source field
named end is a Lean keyword, hence the field name stop. -/
structure Range where
  start : Nat
  stop : Nat
deriving DecidableEq, Repr

/-- Modelled from the spec: whether one numeric storage element satisfies the
operator against the constraint value.  Storage elements are never null, so
IS NULL is false and IS NOT NULL is true at storage level; null semantics
live in the null overlay. -/
def satisfiesOp : FilterOp → Int → Int → Bool
  | .eq, x, v => x == v
  | .ne, x, v => x != v
  | .lt, x, v => x < v
  | .le, x, v => x ≤ v
  | .gt, x, v => x > v
  | .ge, x, v => x ≥ v
  | .isNull, _, _ => false
  | .isNotNull, _, _ => true

/-- Modelled from the spec: the storage interface of spec section 3 (C3):
linear search over a contiguous range and indexed probe over an index list. -/
structure Storage where
  size : Nat
  LinearSearch : FilterOp → Int → Range → List Bool
  IndexSearch : FilterOp → Int → List Nat → List Bool

/-- Modelled from the spec: NumericStorage over a fixed vector of S elements.
LinearSearch returns a bit vector of length S with bits set exactly at
positions inside the range whose element satisfies the operator;
IndexSearch returns one bit per probed index. -/
def NumericStorage (data : List Int) : Storage where
  size := data.length
  LinearSearch op v r :=
    (List.range data.length).map
      (fun j => decide (r.start ≤ j ∧ j < r.stop) && satisfiesOp op (data.getD j 0) v)
  IndexSearch op v idxs := idxs.map (fun i => satisfiesOp op (data.getD i 0) v)

/-- Modelled from the spec: the overlay interface of spec section 3 (C4):
forward range mapping, forward index mapping, lookup-required predicate,
direct index search, and reverse bit-vector mapping. -/
structure StorageOverlay where
  MapToStorageRange : Range → Range
  MapToStorageIndexVector : List Nat → List Nat
  IsStorageLookupRequired : OverlayOp → List Nat → List Bool
  IndexSearch : OverlayOp → List Nat → List Bool
  MapToTableBitVector : List Bool → OverlayOp → List Bool

/-- Number of set bits of the mask strictly before position i (the rank of a
table row inside the non-null storage). -/
def rank (mask : List Bool) (i : Nat) : Nat :=
  (mask.take i).count true

/-- Whether a table row is decided positively by the null overlay alone: a
null row satisfies IS NULL, a non-null row satisfies IS NOT NULL, and no row
satisfies a value operator at the overlay level. -/
def nullDirectHit (mask : List Bool) (op : OverlayOp) (i : Nat) : Bool :=
  match op with
  | .isNull => !(mask.getD i false)
  | .isNotNull => mask.getD i false
  | .other => false

/-- Modelled from the spec: the null overlay wraps storage whose element count
equals the number of non-null rows.  The mask has one bit per table row, set
at non-null rows.  Non-null rows require storage lookup; null rows are decided
directly (IS NULL holds at them, IS NOT NULL and value operators fail).  The
reverse mapping expands a storage-space bit vector to table space, giving null
rows a set bit exactly under IS NULL. -/
def NullOverlay (mask : List Bool) : StorageOverlay where
  MapToStorageRange r := ⟨rank mask r.start, rank mask r.stop⟩
  MapToStorageIndexVector idxs := idxs.map (rank mask)
  IsStorageLookupRequired _ idxs := idxs.map (fun i => mask.getD i false)
  IndexSearch op idxs := idxs.map (nullDirectHit mask op)
  MapToTableBitVector sbv op :=
    (List.range mask.length).map
      (fun t => if mask.getD t false then sbv.getD (rank mask t) false
                else decide (op = OverlayOp.isNull))

/-- Binding of one storage plus its ordered overlay stack (outermost first),
as in query_executor.h. -/
structure SimpleColumn where
  overlays : List StorageOverlay
  storage : Storage

/-- Modelled from the spec: a row map is the sorted duplicate-free list of its
set row indices. -/
abbrev RowMap := List Nat

/-- Modelled from the spec: in-place intersection keeps exactly the rows of the
left map that are also in the right map. -/
def RowMap.Intersect (rm other : RowMap) : RowMap :=
  rm.filter (fun x => other.contains x)

/-- Modelled from the spec: the row map of a table-space bit vector is the list
of its set positions. -/
def RowMap.fromBitVector (bv : List Bool) : RowMap :=
  (List.range bv.length).filter (fun i => bv.getD i false)

/-- Modelled from the spec: the row-map invariants of spec section 3: sorted
ascending, distinct, all values below the table row count. -/
def RowMap.WellFormed (rm : RowMap) (n : Nat) : Prop :=
  rm.Sorted (· < ·) ∧ ∀ x ∈ rm, x < n

/-- Helper struct coupling the global (original table space) and current
(progressively rewritten) index of each candidate row, from
query_executor.cc. -/
structure IndexFilterHelper where
  current : List Nat
  global : List Nat
deriving DecidableEq, Repr

/-- Constructor of IndexFilterHelper: both lists start as the given indices. -/
def IndexFilterHelper.ofIndices (indices : List Nat) : IndexFilterHelper :=
  ⟨indices, indices⟩

/-- Loop body of IndexFilterHelper::Partition: walk the bit vector in index
order, pushing each (current, global) pair onto the set partition when its bit
is set and onto the non-set partition otherwise.  A length mismatch between
the bit vector and the index lists is out of contract in the source
(BitVector iteration indexes the vectors); the fallback arm is unreachable
under the contract. -/
def partitionGo : List Bool → List Nat → List Nat → IndexFilterHelper × IndexFilterHelper
  | true :: bs, c :: cs, g :: gs =>
    let p := partitionGo bs cs gs
    (⟨c :: p.1.current, g :: p.1.global⟩, p.2)
  | false :: bs, c :: cs, g :: gs =>
    let p := partitionGo bs cs gs
    (p.1, ⟨c :: p.2.current, g :: p.2.global⟩)
  | _, _, _ => (⟨[], []⟩, ⟨[], []⟩)

/-- IndexFilterHelper::Partition from query_executor.cc: split the pairs by the
bit vector, with an early return handing the whole input to the non-set side
when no bit is set. -/
def IndexFilterHelper.Partition (h : IndexFilterHelper) (bv : List Bool) :
    IndexFilterHelper × IndexFilterHelper :=
  if bv.count true = 0 then (⟨[], []⟩, h)
  else partitionGo bv h.current h.global

/-- Elements of the list at positions whose bit is set (std::remove_if with the
negated bit predicate, as in IndexFilterHelper::KeepAtSet). -/
def keepList (l : List Nat) (bv : List Bool) : List Nat :=
  ((l.zip bv).filter (fun p => p.2)).map (fun p => p.1)

/-- IndexFilterHelper::KeepAtSet from query_executor.cc: drop the pairs whose
bit is clear, returning the count of removed elements together with the
filtered helper. -/
def IndexFilterHelper.KeepAtSet (h : IndexFilterHelper) (bv : List Bool) :
    Nat × IndexFilterHelper :=
  (h.current.length - bv.count true, ⟨keepList h.current bv, keepList h.global bv⟩)

/-- One overlay iteration of QueryExecutor::IndexedColumnFilter, on the state
(helper, valid list, removed count).  Fast path when every index requires
storage lookup; slow path partitions, resolves the no-lookup pairs through the
overlay IndexSearch, appends the surviving globals to valid, and only then
rewrites the remaining current indices through MapToStorageIndexVector. -/
def indexedStep (op : OverlayOp) (st : IndexFilterHelper × List Nat × Nat)
    (ov : StorageOverlay) : IndexFilterHelper × List Nat × Nat :=
  let toFilter := st.1
  let valid := st.2.1
  let countRemoved := st.2.2
  let partition := ov.IsStorageLookupRequired op toFilter.current
  if partition.count true = partition.length then
    (⟨ov.MapToStorageIndexVector toFilter.current, toFilter.global⟩, valid, countRemoved)
  else
    let pr := IndexFilterHelper.Partition toFilter partition
    let validBv := ov.IndexSearch op pr.2.current
    let kr := pr.2.KeepAtSet validBv
    (⟨ov.MapToStorageIndexVector pr.1.current, pr.1.global⟩,
     valid ++ kr.2.global, countRemoved + kr.1)

/-- The valid list and removed count of QueryExecutor::IndexedColumnFilter after
the overlay loop and the final storage IndexSearch step. -/
def indexedState (c : Constraint) (col : SimpleColumn) (rm : RowMap) :
    List Nat × Nat :=
  let op := FilterOpToOverlayOp c.op
  let st := col.overlays.foldl (indexedStep op) (IndexFilterHelper.ofIndices rm, [], 0)
  let matched := col.storage.IndexSearch c.op c.value st.1.current
  let kr := st.1.KeepAtSet matched
  (st.2.1 ++ kr.2.global, st.2.2 + kr.1)

namespace QueryExecutor

/-- QueryExecutor::IndexedColumnFilter from query_executor.cc: collect the
surviving global indices and sort them ascending. -/
def IndexedColumnFilter (c : Constraint) (col : SimpleColumn) (rm : RowMap) : RowMap :=
  (indexedState c col rm).1.mergeSort

/-- QueryExecutor::BoundedColumnFilter from query_executor.cc: narrow the range
of the row map through the overlays, linear-search storage once, then lift the
storage bit vector back to table space innermost-first. -/
def BoundedColumnFilter (c : Constraint) (col : SimpleColumn) (rm : RowMap) : RowMap :=
  let tableRange : Range := ⟨rm.headD 0, rm.getLastD 0 + 1⟩
  let storageRange := col.overlays.foldl (fun r ov => ov.MapToStorageRange r) tableRange
  let sbv := col.storage.LinearSearch c.op c.value storageRange
  let tbv := col.overlays.reverse.foldl
    (fun bv ov => ov.MapToTableBitVector bv (FilterOpToOverlayOp c.op)) sbv
  RowMap.fromBitVector tbv

/-- Strategy selector of QueryExecutor::FilterColumn.  In the source the test
is size < 1024 and (double) size / range_size < 0.5.  For size < 1024 and
range_size < 2^32 the double quotient is exact enough that the comparison
equals the integer comparison 2 * size < range_size, and for range_size = 0
the quotient is plus infinity (size is positive on a non-empty row map), so
the comparison is false; the integer form below is therefore the exact
behaviour of the double expression. -/
def chooseIndexedAlgorithm (rm : RowMap) : Bool :=
  decide (rm.length < 1024 ∧ 2 * rm.length < rm.getLastD 0 - rm.headD 0)

/-- QueryExecutor::FilterColumn from query_executor.cc: empty row map is a
no-op; otherwise dispatch to the indexed algorithm (assigning its result) or
the bounded algorithm (intersecting its result into the row map). -/
def FilterColumn (c : Constraint) (col : SimpleColumn) (rm : RowMap) : RowMap :=
  if rm.isEmpty then rm
  else if chooseIndexedAlgorithm rm then IndexedColumnFilter c col rm
  else RowMap.Intersect rm (BoundedColumnFilter c col rm)

end QueryExecutor

/-! Basic lemmas about the helper operations. -/

theorem keepList_nil (bv : List Bool) : keepList [] bv = [] := by
  simp [keepList]

theorem keepList_nil_bv (l : List Nat) : keepList l [] = [] := by
  simp [keepList]

theorem keepList_cons (a : Nat) (l : List Nat) (b : Bool) (bv : List Bool) :
    keepList (a :: l) (b :: bv) = if b then a :: keepList l bv else keepList l bv := by
  cases b <;> simp [keepList]

theorem keepList_sublist : ∀ (l : List Nat) (bv : List Bool), (keepList l bv).Sublist l
  | [], _ => by simp [keepList_nil]
  | _ :: _, [] => by simp [keepList_nil_bv]
  | a :: l, b :: bv => by
    rw [keepList_cons]
    cases b
    · exact (keepList_sublist l bv).cons a
    · exact (keepList_sublist l bv).cons₂ a

theorem keepList_length : ∀ (l : List Nat) (bv : List Bool), bv.length = l.length →
    (keepList l bv).length = bv.count true
  | [], [], _ => by simp [keepList_nil]
  | a :: l, b :: bv, h => by
    rw [keepList_cons]
    have ih := keepList_length l bv (by simpa using h)
    cases b <;> simp [ih, List.count_cons]

theorem keepList_map (f : Nat → Bool) : ∀ (l : List Nat), keepList l (l.map f) = l.filter f
  | [] => by simp [keepList_nil]
  | a :: l => by
    rw [List.map_cons, keepList_cons, keepList_map f l, List.filter_cons]

theorem partitionGo_map (m : Nat → Bool) : ∀ (l : List Nat),
    partitionGo (l.map m) l l =
      (⟨l.filter m, l.filter m⟩, ⟨l.filter (fun x => !(m x)), l.filter (fun x => !(m x))⟩)
  | [] => by simp [partitionGo]
  | a :: l => by
    have ih := partitionGo_map m l
    rcases hm : m a <;> simp [partitionGo, hm, ih, List.filter_cons]

theorem partitionGo_eq : ∀ (bv : List Bool) (cs gs : List Nat),
    bv.length = cs.length → cs.length = gs.length →
    partitionGo bv cs gs =
      (⟨(((cs.zip gs).zip bv).filter (fun p => p.2)).map (fun p => p.1.1),
        (((cs.zip gs).zip bv).filter (fun p => p.2)).map (fun p => p.1.2)⟩,
       ⟨(((cs.zip gs).zip bv).filter (fun p => !p.2)).map (fun p => p.1.1),
        (((cs.zip gs).zip bv).filter (fun p => !p.2)).map (fun p => p.1.2)⟩)
  | [], [], [], _, _ => by simp [partitionGo]
  | b :: bv, c :: cs, g :: gs, h1, h2 => by
    have ih := partitionGo_eq bv cs gs (by simpa using h1) (by simpa using h2)
    rcases b <;> simp [partitionGo, ih]

theorem partitionGo_global_le : ∀ (bv : List Bool) (cs gs : List Nat),
    ((partitionGo bv cs gs).1.global : Multiset Nat) +
      ((partitionGo bv cs gs).2.global : Multiset Nat) ≤ (gs : Multiset Nat)
  | [], _, gs => by simp [partitionGo]
  | _ :: _, [], gs => by simp [partitionGo]
  | _ :: _, _ :: _, [] => by simp [partitionGo]
  | true :: bv, c :: cs, g :: gs => by
    have ih := partitionGo_global_le bv cs gs
    simp only [partitionGo]
    calc ((g :: (partitionGo bv cs gs).1.global : List Nat) : Multiset Nat) +
          ((partitionGo bv cs gs).2.global : Multiset Nat)
        = g ::ₘ (((partitionGo bv cs gs).1.global : Multiset Nat) +
            ((partitionGo bv cs gs).2.global : Multiset Nat)) := by
          simp [Multiset.cons_add]
      _ ≤ g ::ₘ (gs : Multiset Nat) := Multiset.cons_le_cons g ih
      _ = ((g :: gs : List Nat) : Multiset Nat) := by simp
  | false :: bv, c :: cs, g :: gs => by
    have ih := partitionGo_global_le bv cs gs
    simp only [partitionGo]
    calc ((partitionGo bv cs gs).1.global : Multiset Nat) +
          ((g :: (partitionGo bv cs gs).2.global : List Nat) : Multiset Nat)
        = g ::ₘ (((partitionGo bv cs gs).1.global : Multiset Nat) +
            ((partitionGo bv cs gs).2.global : Multiset Nat)) := by
          rw [add_comm, ← Multiset.cons_coe, Multiset.cons_add, add_comm]
      _ ≤ g ::ₘ (gs : Multiset Nat) := Multiset.cons_le_cons g ih
      _ = ((g :: gs : List Nat) : Multiset Nat) := by simp

theorem Partition_global_le (h : IndexFilterHelper) (bv : List Bool) :
    (((h.Partition bv).1.global : Multiset Nat) + ((h.Partition bv).2.global : Multiset Nat))
      ≤ (h.global : Multiset Nat) := by
  unfold IndexFilterHelper.Partition
  split
  · simp
  · exact partitionGo_global_le bv h.current h.global

theorem Partition_map_self (m : Nat → Bool) (l : List Nat) :
    IndexFilterHelper.Partition ⟨l, l⟩ (l.map m) =
      (⟨l.filter m, l.filter m⟩, ⟨l.filter (fun x => !(m x)), l.filter (fun x => !(m x))⟩) := by
  unfold IndexFilterHelper.Partition
  split
  · rename_i hcnt
    have hall : ∀ x ∈ l, m x = false := by
      intro x hx
      have htrue : (true : Bool) ∉ l.map m := by
        rw [← List.count_eq_zero]
        exact hcnt
      rcases hmx : m x
      · rfl
      · exact absurd (List.mem_map.mpr ⟨x, hx, hmx⟩) htrue
    have h1 : l.filter m = [] := by
      rw [List.filter_eq_nil_iff]
      intro x hx
      simp [hall x hx]
    have h2 : l.filter (fun x => !(m x)) = l := by
      rw [List.filter_eq_self]
      intro x hx
      simp [hall x hx]
    simp [h1, h2]
  · exact partitionGo_map m l

theorem KeepAtSet_global_le (h : IndexFilterHelper) (bv : List Bool) :
    (((h.KeepAtSet bv).2.global : Multiset Nat)) ≤ (h.global : Multiset Nat) :=
  Multiset.coe_le.mpr (keepList_sublist h.global bv).subperm

theorem KeepAtSet_count (h : IndexFilterHelper) (bv : List Bool)
    (h1 : bv.length = h.current.length) (h2 : h.current.length = h.global.length) :
    (h.KeepAtSet bv).1 + (h.KeepAtSet bv).2.global.length = h.global.length ∧
      (h.KeepAtSet bv).2.current.length = (h.KeepAtSet bv).2.global.length := by
  have hcur := keepList_length h.current bv h1
  have hglob := keepList_length h.global bv (h1.trans h2)
  have hle : bv.count true ≤ h.current.length := h1 ▸ List.count_le_length true bv
  refine ⟨?_, by rw [IndexFilterHelper.KeepAtSet]; simpa [hcur] using hglob.symm ▸ hcur.symm ▸ rfl⟩
  rw [IndexFilterHelper.KeepAtSet]
  simp only [hglob]
  omega

/-! Lemmas about sorted lists, rank, and bit-vector access. -/

theorem sorted_headD_le (l : List Nat) (hs : l.Pairwise (· < ·)) (x : Nat) (hx : x ∈ l) :
    l.headD 0 ≤ x := by
  cases l with
  | nil => cases hx
  | cons a tl =>
    rcases List.mem_cons.mp hx with h | h
    · simp [h]
    · exact le_of_lt ((List.pairwise_cons.mp hs).1 x h)

theorem getLastD_mem (l : List Nat) (hne : l ≠ []) : l.getLastD 0 ∈ l := by
  rw [List.getLastD_eq_getLast?, List.getLast?_eq_getLast l hne]
  exact List.getLast_mem hne

theorem sorted_le_getLastD (l : List Nat) (hs : l.Pairwise (· < ·)) (x : Nat) (hx : x ∈ l) :
    x ≤ l.getLastD 0 := by
  induction l with
  | nil => cases hx
  | cons a tl ih =>
    cases tl with
    | nil =>
      rcases List.mem_cons.mp hx with h | h
      · simp [h]
      · cases h
    | cons b tl' =>
      have hlast : (a :: b :: tl').getLastD 0 = (b :: tl').getLastD 0 := by
        simp [List.getLastD]
      rw [hlast]
      rcases List.mem_cons.mp hx with h | h
      · subst h
        have hmem : (b :: tl').getLastD 0 ∈ b :: tl' := getLastD_mem _ (by simp)
        exact le_of_lt ((List.pairwise_cons.mp hs).1 _ hmem)
      · exact ih (List.pairwise_cons.mp hs).2 h

theorem rank_mono (mask : List Bool) {i j : Nat} (h : i ≤ j) : rank mask i ≤ rank mask j := by
  unfold rank
  apply List.Sublist.count_le
  have e : mask.take i = (mask.take j).take i := by rw [List.take_take, Nat.min_eq_left h]
  rw [e]
  exact (List.take_prefix i (mask.take j)).sublist

theorem rank_succ (mask : List Bool) (t : Nat) (ht : t < mask.length) :
    rank mask (t + 1) = rank mask t + (if mask.getD t false then 1 else 0) := by
  unfold rank
  rw [List.take_succ, List.getElem?_eq_getElem ht]
  have : mask.getD t false = mask[t] := List.getD_eq_getElem mask false ht
  rw [this]
  rcases hb : mask[t] <;> simp [List.count_append, hb]

theorem rank_le_count (mask : List Bool) (t : Nat) : rank mask t ≤ mask.count true :=
  List.Sublist.count_le (List.take_sublist t mask) true

theorem rank_lt_count (mask : List Bool) (t : Nat) (ht : t < mask.length)
    (hset : mask.getD t false = true) : rank mask t < mask.count true := by
  have h1 : rank mask (t + 1) = rank mask t + 1 := by
    rw [rank_succ mask t ht, hset]
    simp
  have h2 : rank mask (t + 1) ≤ mask.count true := rank_le_count mask (t + 1)
  omega

theorem getD_map_range (n t : Nat) (f : Nat → Bool) (h : t < n) :
    ((List.range n).map f).getD t false = f t := by
  simp [List.getD_eq_getElem?_getD, List.getElem?_map, List.getElem?_range h]

theorem mem_fromBitVector (bv : List Bool) (t : Nat) :
    t ∈ RowMap.fromBitVector bv ↔ t < bv.length ∧ bv.getD t false = true := by
  simp [RowMap.fromBitVector, List.mem_filter, List.mem_range]

theorem Intersect_eq_filter (rm other : RowMap) :
    RowMap.Intersect rm other = rm.filter (fun x => decide (x ∈ other)) := by
  simp [RowMap.Intersect, List.contains, List.elem_eq_mem]

theorem count_true_zero_all_false (bv : List Bool) (h : bv.count true = 0) :
    ∀ b ∈ bv, b = false := by
  intro b hb
  rcases hbv : b
  · rfl
  · rw [List.count_eq_zero] at h
    exact absurd (hbv ▸ hb) h

theorem foldl_preserves {α β : Type} (f : β → α → β) (P : β → Prop) :
    ∀ (l : List α) (init : β), P init → (∀ st a, a ∈ l → P st → P (f st a)) →
      P (l.foldl f init)
  | [], _, h, _ => h
  | a :: l, init, h, hstep =>
    foldl_preserves f P l (f init a) (hstep init a (List.mem_cons_self a l) h)
      (fun st b hb => hstep st b (List.mem_cons_of_mem a hb))

/-! Refinement of the indexed algorithm state: the collected valid rows stay a
sub-multiset of the original row map. -/

theorem indexedStep_valid_le (op : OverlayOp) (ov : StorageOverlay)
    (st : IndexFilterHelper × List Nat × Nat) :
    ((indexedStep op st ov).2.1 : Multiset Nat) + ((indexedStep op st ov).1.global : Multiset Nat)
      ≤ (st.2.1 : Multiset Nat) + (st.1.global : Multiset Nat) := by
  rw [indexedStep]
  split
  · exact le_refl _
  · simp only
    set part := ov.IsStorageLookupRequired op st.1.current with hpart
    set pr := st.1.Partition part with hpr
    have hk : (((pr.2.KeepAtSet (ov.IndexSearch op pr.2.current)).2.global : Multiset Nat))
        ≤ (pr.2.global : Multiset Nat) := KeepAtSet_global_le pr.2 _
    have hp : ((pr.1.global : Multiset Nat) + (pr.2.global : Multiset Nat))
        ≤ (st.1.global : Multiset Nat) := Partition_global_le st.1 part
    calc ((st.2.1 ++ (pr.2.KeepAtSet (ov.IndexSearch op pr.2.current)).2.global : List Nat) :
            Multiset Nat) + (pr.1.global : Multiset Nat)
        = (st.2.1 : Multiset Nat) +
            (((pr.2.KeepAtSet (ov.IndexSearch op pr.2.current)).2.global : Multiset Nat) +
              (pr.1.global : Multiset Nat)) := by
          rw [← Multiset.coe_add, add_assoc]
      _ ≤ (st.2.1 : Multiset Nat) + ((pr.2.global : Multiset Nat) + (pr.1.global : Multiset Nat)) :=
          add_le_add_left (add_le_add_right hk _) _
      _ = (st.2.1 : Multiset Nat) + ((pr.1.global : Multiset Nat) + (pr.2.global : Multiset Nat)) := by
          rw [add_comm ((pr.2.global : List Nat) : Multiset Nat) ((pr.1.global : List Nat) : Multiset Nat)]
      _ ≤ (st.2.1 : Multiset Nat) + (st.1.global : Multiset Nat) := add_le_add_left hp _

theorem indexedState_valid_le (c : Constraint) (col : SimpleColumn) (rm : RowMap) :
    ((indexedState c col rm).1 : Multiset Nat) ≤ (rm : Multiset Nat) := by
  rw [indexedState]
  simp only
  set op := FilterOpToOverlayOp c.op with hop
  have hfold : ∀ st : IndexFilterHelper × List Nat × Nat,
      st = col.overlays.foldl (indexedStep op) (IndexFilterHelper.ofIndices rm, [], 0) →
      (st.2.1 : Multiset Nat) + (st.1.global : Multiset Nat) ≤ (rm : Multiset Nat) := by
    intro st hst
    subst hst
    apply foldl_preserves (indexedStep op)
      (fun st => (st.2.1 : Multiset Nat) + (st.1.global : Multiset Nat) ≤ (rm : Multiset Nat))
    · simp [IndexFilterHelper.ofIndices]
    · intro st ov _ hle
      exact le_trans (indexedStep_valid_le op ov st) hle
  set st := col.overlays.foldl (indexedStep op) (IndexFilterHelper.ofIndices rm, [], 0) with hst
  have hle := hfold st hst
  have hk : (((st.1.KeepAtSet (col.storage.IndexSearch c.op c.value st.1.current)).2.global :
      Multiset Nat)) ≤ (st.1.global : Multiset Nat) := KeepAtSet_global_le st.1 _
  calc ((st.2.1 ++ (st.1.KeepAtSet (col.storage.IndexSearch c.op c.value st.1.current)).2.global :
          List Nat) : Multiset Nat)
      = (st.2.1 : Multiset Nat) +
          ((st.1.KeepAtSet (col.storage.IndexSearch c.op c.value st.1.current)).2.global :
            Multiset Nat) := by rw [← Multiset.coe_add]
    _ ≤ (st.2.1 : Multiset Nat) + (st.1.global : Multiset Nat) := add_le_add_left hk _
    _ ≤ (rm : Multiset Nat) := hle

theorem mem_indexedColumnFilter_mem (c : Constraint) (col : SimpleColumn) (rm : RowMap)
    (x : Nat) (hx : x ∈ QueryExecutor.IndexedColumnFilter c col rm) : x ∈ rm := by
  rw [QueryExecutor.IndexedColumnFilter] at hx
  have hx' : x ∈ (indexedState c col rm).1 := (List.mergeSort_perm _ _).mem_iff.mp hx
  have := indexedState_valid_le c col rm
  exact Multiset.mem_coe.mp (Multiset.mem_of_le this (Multiset.mem_coe.mpr hx'))

/-! Claim theorems. -/

/-- Claim C1: for every non-empty row map, FilterColumn selects the indexed
algorithm exactly when size < 1024 and size / (last - first) < 0.5 (the double
quotient; for last = first it is plus infinity and the test fails), and
dispatches accordingly: the indexed result is assigned, the bounded result is
intersected into the row map. -/
theorem filterColumn_strategy_selection (c : Constraint) (col : SimpleColumn) (R : RowMap)
    (h : R ≠ []) :
    (QueryExecutor.chooseIndexedAlgorithm R = true ↔
      R.length < 1024 ∧ 0 < R.getLastD 0 - R.headD 0 ∧
        ((R.length : ℚ) / ((R.getLastD 0 - R.headD 0 : Nat) : ℚ) < 1 / 2)) ∧
    QueryExecutor.FilterColumn c col R =
      (if QueryExecutor.chooseIndexedAlgorithm R
       then QueryExecutor.IndexedColumnFilter c col R
       else RowMap.Intersect R (QueryExecutor.BoundedColumnFilter c col R)) := by
  constructor
  · rw [QueryExecutor.chooseIndexedAlgorithm, decide_eq_true_iff]
    constructor
    · rintro ⟨h1, h2⟩
      have hr : 0 < R.getLastD 0 - R.headD 0 := by omega
      refine ⟨h1, hr, ?_⟩
      rw [div_lt_iff₀ (by exact_mod_cast hr)]
      have hc : (2 * R.length : ℚ) < ((R.getLastD 0 - R.headD 0 : Nat) : ℚ) := by
        exact_mod_cast h2
      nlinarith [hc]
    · rintro ⟨h1, hr, hd⟩
      refine ⟨h1, ?_⟩
      rw [div_lt_iff₀ (by exact_mod_cast hr)] at hd
      have hc : (2 * R.length : ℚ) < ((R.getLastD 0 - R.headD 0 : Nat) : ℚ) := by
        nlinarith [hd]
      exact_mod_cast hc
  · rw [QueryExecutor.FilterColumn]
    have he : R.isEmpty = false := by simpa [List.isEmpty_iff] using h
    simp [he]

/-- Witness for C1 at the concrete row map [0, 1]. -/
theorem filterColumn_strategy_selection_witness :
    (([0, 1] : RowMap) ≠ []) ∧
    ((QueryExecutor.chooseIndexedAlgorithm [0, 1] = true ↔
      ([0, 1] : RowMap).length < 1024 ∧
        0 < ([0, 1] : RowMap).getLastD 0 - ([0, 1] : RowMap).headD 0 ∧
        ((([0, 1] : RowMap).length : ℚ) /
            ((([0, 1] : RowMap).getLastD 0 - ([0, 1] : RowMap).headD 0 : Nat) : ℚ) < 1 / 2)) ∧
    QueryExecutor.FilterColumn ⟨0, FilterOp.eq, 0, SqlType.long⟩ ⟨[], NumericStorage [1, 2]⟩ [0, 1] =
      (if QueryExecutor.chooseIndexedAlgorithm [0, 1]
       then QueryExecutor.IndexedColumnFilter ⟨0, FilterOp.eq, 0, SqlType.long⟩
          ⟨[], NumericStorage [1, 2]⟩ [0, 1]
       else RowMap.Intersect [0, 1]
          (QueryExecutor.BoundedColumnFilter ⟨0, FilterOp.eq, 0, SqlType.long⟩
            ⟨[], NumericStorage [1, 2]⟩ [0, 1]))) :=
  ⟨by decide, filterColumn_strategy_selection _ _ [0, 1] (by decide)⟩

/-- Claim C2: the result of FilterColumn is always a subset of the input row
map, and an empty input row map is a no-op returning the empty map. -/
theorem filterColumn_refines_input (c : Constraint) (col : SimpleColumn) (R : RowMap) :
    (∀ x, x ∈ QueryExecutor.FilterColumn c col R → x ∈ R) ∧
    QueryExecutor.FilterColumn c col [] = [] := by
  constructor
  · intro x hx
    rw [QueryExecutor.FilterColumn] at hx
    split at hx
    · exact hx
    · split at hx
      · exact mem_indexedColumnFilter_mem c col R x hx
      · rw [Intersect_eq_filter] at hx
        exact (List.mem_filter.mp hx).1
  · rfl

/-- Witness for C2: row 0 survives a concrete bounded filter and is in the input. -/
theorem filterColumn_refines_input_witness :
    (0 ∈ QueryExecutor.FilterColumn ⟨0, FilterOp.gt, 5, SqlType.long⟩
        ⟨[], NumericStorage [10, 20]⟩ [0, 1]) ∧
    (0 ∈ ([0, 1] : RowMap)) :=
  ⟨by decide,
   (filterColumn_refines_input ⟨0, FilterOp.gt, 5, SqlType.long⟩
      ⟨[], NumericStorage [10, 20]⟩ [0, 1]).1 0 (by decide)⟩

/-- Claim C7: IndexFilterHelper.Partition is stable and pairing-preserving:
with matching lengths, the set-bit partition carries exactly the pairs at set
positions and the clear-bit partition exactly the pairs at clear positions,
each in input order. -/
theorem partition_stable_pairing (h : IndexFilterHelper) (bv : List Bool)
    (h1 : bv.length = h.current.length) (h2 : h.current.length = h.global.length) :
    ((h.Partition bv).1.current.zip (h.Partition bv).1.global =
        (((h.current.zip h.global).zip bv).filter (fun p => p.2)).map (fun p => p.1)) ∧
    ((h.Partition bv).2.current.zip (h.Partition bv).2.global =
        (((h.current.zip h.global).zip bv).filter (fun p => !p.2)).map (fun p => p.1)) := by
  have hzlen : (h.current.zip h.global).length = bv.length := by
    rw [List.length_zip]
    omega
  rw [IndexFilterHelper.Partition]
  split
  · rename_i hcnt
    have hfalse : ∀ p ∈ (h.current.zip h.global).zip bv, p.2 = false := by
      intro p hp
      exact count_true_zero_all_false bv hcnt p.2 (List.of_mem_zip hp).2
    constructor
    · have : ((h.current.zip h.global).zip bv).filter (fun p => p.2) = [] := by
        rw [List.filter_eq_nil_iff]
        intro p hp
        simp [hfalse p hp]
      simp [this]
    · have hfil : ((h.current.zip h.global).zip bv).filter (fun p => !p.2) =
          (h.current.zip h.global).zip bv := by
        rw [List.filter_eq_self]
        intro p hp
        simp [hfalse p hp]
      rw [hfil, List.map_fst_zip]
      omega
  · rw [partitionGo_eq bv h.current h.global h1 h2]
    constructor
    · rw [List.zip_map']
    · rw [List.zip_map']

/-- Witness for C7 at a concrete helper and bit vector. -/
theorem partition_stable_pairing_witness :
    (([true, false, true] : List Bool).length = ([5, 6, 7] : List Nat).length) ∧
    (([5, 6, 7] : List Nat).length = ([10, 11, 12] : List Nat).length) ∧
    (((IndexFilterHelper.Partition ⟨[5, 6, 7], [10, 11, 12]⟩ [true, false, true]).1.current.zip
        (IndexFilterHelper.Partition ⟨[5, 6, 7], [10, 11, 12]⟩ [true, false, true]).1.global =
        ((([5, 6, 7].zip [10, 11, 12]).zip [true, false, true]).filter
          (fun p => p.2)).map (fun p => p.1)) ∧
    ((IndexFilterHelper.Partition ⟨[5, 6, 7], [10, 11, 12]⟩ [true, false, true]).2.current.zip
        (IndexFilterHelper.Partition ⟨[5, 6, 7], [10, 11, 12]⟩ [true, false, true]).2.global =
        ((([5, 6, 7].zip [10, 11, 12]).zip [true, false, true]).filter
          (fun p => !p.2)).map (fun p => p.1))) :=
  ⟨by decide, by decide,
   partition_stable_pairing ⟨[5, 6, 7], [10, 11, 12]⟩ [true, false, true] (by decide) (by decide)⟩

/-- Claim C10: a singleton row map has range_size = 0, the selection condition
is false (the double quotient of a positive size by zero is plus infinity, not
below 0.5), and the bounded algorithm is always chosen; the division faults
nowhere. -/
theorem filterColumn_singleton_bounded (c : Constraint) (col : SimpleColumn) (x : Nat) :
    ([x] : RowMap).getLastD 0 - ([x] : RowMap).headD 0 = 0 ∧
    QueryExecutor.chooseIndexedAlgorithm [x] = false ∧
    QueryExecutor.FilterColumn c col [x] =
      RowMap.Intersect [x] (QueryExecutor.BoundedColumnFilter c col [x]) := by
  refine ⟨by simp, ?_, ?_⟩
  · simp [QueryExecutor.chooseIndexedAlgorithm]
  · rw [QueryExecutor.FilterColumn]
    simp [QueryExecutor.chooseIndexedAlgorithm]

/-- Claim C9 counterexample: the claim says the executor selects the indexed
algorithm for R = {0, 3}; in the code the density 2 / 3 is not below 0.5, so
the selection condition is false and the bounded algorithm is chosen. -/
theorem s2_selection_counterexample :
    QueryExecutor.chooseIndexedAlgorithm [0, 3] = false := by decide

/-- Claim C9 amended: in scenario S2 the executor selects the bounded
algorithm both for R = {0, 4} (density 0.5) and for R = {0, 3} (density 2/3),
and the filter result for R = {0, 3} under the constraint (>, 15) is {3}. -/
theorem s2_sparse_scenario :
    QueryExecutor.chooseIndexedAlgorithm [0, 4] = false ∧
    QueryExecutor.chooseIndexedAlgorithm [0, 3] = false ∧
    QueryExecutor.FilterColumn ⟨0, FilterOp.gt, 15, SqlType.long⟩
      ⟨[], NumericStorage [10, 20, 30, 40, 50]⟩ [0, 3] = [3] := by
  refine ⟨by decide, by decide, by decide⟩

/-- Claim C6: in the slow path of the indexed filter (some bit of
IsStorageLookupRequired clear), the no-storage-lookup partition is decided by
the overlay IndexSearch: the pairs with a set bit keep their global values,
appended to the valid list as they were before the rewrite (only the
storage-lookup partition goes through MapToStorageIndexVector), and the
clear-bit pairs are counted as removed. -/
theorem indexedStep_slow_path (op : OverlayOp) (ov : StorageOverlay)
    (st : IndexFilterHelper × List Nat × Nat)
    (h : ¬ (ov.IsStorageLookupRequired op st.1.current).count true =
          (ov.IsStorageLookupRequired op st.1.current).length) :
    indexedStep op st ov =
      (⟨ov.MapToStorageIndexVector
          (st.1.Partition (ov.IsStorageLookupRequired op st.1.current)).1.current,
        (st.1.Partition (ov.IsStorageLookupRequired op st.1.current)).1.global⟩,
       st.2.1 ++ keepList (st.1.Partition (ov.IsStorageLookupRequired op st.1.current)).2.global
          (ov.IndexSearch op (st.1.Partition (ov.IsStorageLookupRequired op st.1.current)).2.current),
       st.2.2 + ((st.1.Partition (ov.IsStorageLookupRequired op st.1.current)).2.current.length -
          (ov.IndexSearch op
            (st.1.Partition (ov.IsStorageLookupRequired op st.1.current)).2.current).count true)) := by
  rw [indexedStep]
  simp only [if_neg h]
  rfl

/-- Witness for C6 with the null overlay over the mask [true, false]: position
1 is decided by the overlay, position 0 is handed to storage lookup. -/
theorem indexedStep_slow_path_witness :
    (¬ ((NullOverlay [true, false]).IsStorageLookupRequired OverlayOp.other
          ([0, 1] : List Nat)).count true =
        ((NullOverlay [true, false]).IsStorageLookupRequired OverlayOp.other
          ([0, 1] : List Nat)).length) ∧
    (indexedStep OverlayOp.other (⟨[0, 1], [0, 1]⟩, [], 0) (NullOverlay [true, false]) =
      (⟨(NullOverlay [true, false]).MapToStorageIndexVector
          ((⟨[0, 1], [0, 1]⟩ : IndexFilterHelper).Partition
            ((NullOverlay [true, false]).IsStorageLookupRequired OverlayOp.other
              ([0, 1] : List Nat))).1.current,
        ((⟨[0, 1], [0, 1]⟩ : IndexFilterHelper).Partition
            ((NullOverlay [true, false]).IsStorageLookupRequired OverlayOp.other
              ([0, 1] : List Nat))).1.global⟩,
       ([] : List Nat) ++ keepList
          ((⟨[0, 1], [0, 1]⟩ : IndexFilterHelper).Partition
            ((NullOverlay [true, false]).IsStorageLookupRequired OverlayOp.other
              ([0, 1] : List Nat))).2.global
          ((NullOverlay [true, false]).IndexSearch OverlayOp.other
            ((⟨[0, 1], [0, 1]⟩ : IndexFilterHelper).Partition
              ((NullOverlay [true, false]).IsStorageLookupRequired OverlayOp.other
                ([0, 1] : List Nat))).2.current),
       0 + (((⟨[0, 1], [0, 1]⟩ : IndexFilterHelper).Partition
              ((NullOverlay [true, false]).IsStorageLookupRequired OverlayOp.other
                ([0, 1] : List Nat))).2.current.length -
            ((NullOverlay [true, false]).IndexSearch OverlayOp.other
              ((⟨[0, 1], [0, 1]⟩ : IndexFilterHelper).Partition
                ((NullOverlay [true, false]).IsStorageLookupRequired OverlayOp.other
                  ([0, 1] : List Nat))).2.current).count true))) :=
  ⟨by decide,
   indexedStep_slow_path OverlayOp.other (NullOverlay [true, false])
     (⟨[0, 1], [0, 1]⟩, [], 0) (by decide)⟩

/-! The overlay and storage interface contracts of spec section 4.6: each
interface call answers one bit (or one index) per queried index. -/

/-- Modelled from the spec: the length contracts of the overlay interface. -/
structure OverlayContract (ov : StorageOverlay) : Prop where
  lookupLength : ∀ op idxs, (ov.IsStorageLookupRequired op idxs).length = idxs.length
  searchLength : ∀ op idxs, (ov.IndexSearch op idxs).length = idxs.length
  mapLength : ∀ idxs, (ov.MapToStorageIndexVector idxs).length = idxs.length

/-- The null overlay satisfies the overlay length contracts. -/
theorem nullOverlay_contract (mask : List Bool) : OverlayContract (NullOverlay mask) := by
  refine ⟨?_, ?_, ?_⟩ <;> intros <;> simp [NullOverlay]

/-- NumericStorage satisfies the storage IndexSearch length contract. -/
theorem numericStorage_indexSearch_length (data : List Int) (op : FilterOp) (v : Int)
    (idxs : List Nat) : ((NumericStorage data).IndexSearch op v idxs).length = idxs.length := by
  simp [NumericStorage]

theorem partition_lengths (h : IndexFilterHelper) (bv : List Bool)
    (h1 : bv.length = h.current.length) (h2 : h.current.length = h.global.length) :
    (h.Partition bv).1.current.length = (h.Partition bv).1.global.length ∧
    (h.Partition bv).2.current.length = (h.Partition bv).2.global.length ∧
    (h.Partition bv).1.global.length + (h.Partition bv).2.global.length = h.global.length := by
  rw [IndexFilterHelper.Partition]
  split
  · simp [h2]
  · rw [partitionGo_eq bv h.current h.global h1 h2]
    refine ⟨by simp, by simp, ?_⟩
    simp only [List.length_map]
    have hsplit := (List.filter_append_perm (fun p => p.2)
      ((h.current.zip h.global).zip bv)).length_eq
    rw [List.length_append] at hsplit
    have hz : ((h.current.zip h.global).zip bv).length = h.global.length := by
      simp [List.length_zip]
      omega
    omega

theorem indexedStep_lengths (op : OverlayOp) (ov : StorageOverlay) (hc : OverlayContract ov)
    (st : IndexFilterHelper × List Nat × Nat) (rmLen : Nat)
    (hinv : st.1.current.length = st.1.global.length ∧
      rmLen = st.1.global.length + st.2.1.length + st.2.2) :
    (indexedStep op st ov).1.current.length = (indexedStep op st ov).1.global.length ∧
      rmLen = (indexedStep op st ov).1.global.length + (indexedStep op st ov).2.1.length +
        (indexedStep op st ov).2.2 := by
  obtain ⟨hlen, hsum⟩ := hinv
  rw [indexedStep]
  split
  · exact ⟨by simp [hc.mapLength, hlen], by simpa using hsum⟩
  · simp only
    set part := ov.IsStorageLookupRequired op st.1.current with hpartdef
    have hp1 : part.length = st.1.current.length := hc.lookupLength op st.1.current
    have hpl := partition_lengths st.1 part hp1 hlen
    set pr := st.1.Partition part with hprdef
    obtain ⟨hpl1, hpl2, hpl3⟩ := hpl
    have hvb : (ov.IndexSearch op pr.2.current).length = pr.2.current.length :=
      hc.searchLength op pr.2.current
    have hkc := KeepAtSet_count pr.2 (ov.IndexSearch op pr.2.current) hvb hpl2
    obtain ⟨hkc1, hkc2⟩ := hkc
    refine ⟨by simp [hc.mapLength, hpl1], ?_⟩
    simp only [List.length_append]
    omega

/-- Claim C4: the PERFETTO_CHECK of IndexedColumnFilter never fires: under the
overlay and storage interface length contracts, every row of the input row map
is accounted for exactly once, so R.size() equals the length of the valid list
plus the removed count at the end of the algorithm. -/
theorem indexedColumnFilter_check_invariant (c : Constraint) (col : SimpleColumn) (rm : RowMap)
    (hov : ∀ ov ∈ col.overlays, OverlayContract ov)
    (hst : ∀ op v idxs, (col.storage.IndexSearch op v idxs).length = idxs.length) :
    rm.length = (indexedState c col rm).1.length + (indexedState c col rm).2 := by
  rw [indexedState]
  simp only
  set op := FilterOpToOverlayOp c.op with hop
  have hfold := foldl_preserves (indexedStep op)
    (fun st => st.1.current.length = st.1.global.length ∧
      rm.length = st.1.global.length + st.2.1.length + st.2.2)
    col.overlays (IndexFilterHelper.ofIndices rm, [], 0)
    (by simp [IndexFilterHelper.ofIndices])
    (fun st ov hmem hp => indexedStep_lengths op ov (hov ov hmem) st rm.length hp)
  set stf := col.overlays.foldl (indexedStep op) (IndexFilterHelper.ofIndices rm, [], 0) with hstf
  obtain ⟨hlen, hsum⟩ := hfold
  have hm : (col.storage.IndexSearch c.op c.value stf.1.current).length = stf.1.current.length :=
    hst c.op c.value stf.1.current
  have hkc := KeepAtSet_count stf.1 (col.storage.IndexSearch c.op c.value stf.1.current) hm hlen
  obtain ⟨hkc1, hkc2⟩ := hkc
  simp only [List.length_append]
  omega

/-- Witness for C4 on the null-overlay column of scenario S4. -/
theorem indexedColumnFilter_check_invariant_witness :
    (∀ ov ∈ ([NullOverlay [true, false, true, false]] : List StorageOverlay),
        OverlayContract ov) ∧
    (∀ op v idxs, ((NumericStorage [7, 9]).IndexSearch op v idxs).length = idxs.length) ∧
    ([0, 1, 2, 3] : RowMap).length =
      (indexedState ⟨0, FilterOp.eq, 9, SqlType.long⟩
        ⟨[NullOverlay [true, false, true, false]], NumericStorage [7, 9]⟩ [0, 1, 2, 3]).1.length +
      (indexedState ⟨0, FilterOp.eq, 9, SqlType.long⟩
        ⟨[NullOverlay [true, false, true, false]], NumericStorage [7, 9]⟩ [0, 1, 2, 3]).2 :=
  ⟨fun ov hov => by
      rw [List.mem_singleton] at hov
      exact hov ▸ nullOverlay_contract [true, false, true, false],
   fun op v idxs => numericStorage_indexSearch_length [7, 9] op v idxs,
   indexedColumnFilter_check_invariant ⟨0, FilterOp.eq, 9, SqlType.long⟩
     ⟨[NullOverlay [true, false, true, false]], NumericStorage [7, 9]⟩ [0, 1, 2, 3]
     (fun ov hov => by
       rw [List.mem_singleton] at hov
       exact hov ▸ nullOverlay_contract [true, false, true, false])
     (fun op v idxs => numericStorage_indexSearch_length [7, 9] op v idxs)⟩

/-- Claim C5: for a well-formed input row map, the row map returned by
IndexedColumnFilter satisfies the row-map invariants: sorted strictly
ascending (sorted and duplicate-free) with all values below the table row
count. -/
theorem indexedColumnFilter_result_wellFormed (c : Constraint) (col : SimpleColumn)
    (rm : RowMap) (n : Nat) (hwf : RowMap.WellFormed rm n) :
    RowMap.WellFormed (QueryExecutor.IndexedColumnFilter c col rm) n := by
  obtain ⟨hsorted, hbound⟩ := hwf
  have hsub := indexedState_valid_le c col rm
  have hnodup_rm : rm.Nodup := hsorted.nodup
  have hnodup_valid : (indexedState c col rm).1.Nodup := by
    have := Multiset.nodup_of_le hsub (Multiset.coe_nodup.mpr hnodup_rm)
    exact Multiset.coe_nodup.mp this
  have hperm : List.Perm (QueryExecutor.IndexedColumnFilter c col rm) (indexedState c col rm).1 :=
    List.mergeSort_perm _ _
  have hnodup_res : (QueryExecutor.IndexedColumnFilter c col rm).Nodup :=
    hperm.nodup_iff.mpr hnodup_valid
  have hsorted_le : (QueryExecutor.IndexedColumnFilter c col rm).Sorted (· ≤ ·) :=
    List.sorted_mergeSort' _
  constructor
  · exact ((hsorted_le.and hnodup_res).imp (fun hp => lt_of_le_of_ne hp.1 hp.2))
  · intro x hx
    have hx1 : x ∈ (indexedState c col rm).1 := hperm.mem_iff.mp hx
    have hx2 : x ∈ rm :=
      Multiset.mem_coe.mp (Multiset.mem_of_le hsub (Multiset.mem_coe.mpr hx1))
    exact hbound x hx2

/-- Witness for C5 on the null-overlay column of scenario S4 with a sparse
well-formed row map. -/
theorem indexedColumnFilter_result_wellFormed_witness :
    RowMap.WellFormed [0, 2, 3] 4 ∧
    RowMap.WellFormed (QueryExecutor.IndexedColumnFilter ⟨0, FilterOp.eq, 9, SqlType.long⟩
      ⟨[NullOverlay [true, false, true, false]], NumericStorage [7, 9]⟩ [0, 2, 3]) 4 :=
  ⟨⟨by decide, by decide⟩,
   indexedColumnFilter_result_wellFormed ⟨0, FilterOp.eq, 9, SqlType.long⟩
     ⟨[NullOverlay [true, false, true, false]], NumericStorage [7, 9]⟩ [0, 2, 3] 4
     ⟨by decide, by decide⟩⟩

/-! Strategy independence (claim C3).  The eligible simple columns are exactly
the ones the legacy bridge builds: numeric storage with either no overlay or a
single null overlay. -/

/-- The simple column the legacy bridge builds for an eligible column: numeric
storage, plus a null overlay exactly when the column is nullable. -/
def mkSimpleColumn (data : List Int) : Option (List Bool) → SimpleColumn
  | none => ⟨[], NumericStorage data⟩
  | some mask => ⟨[NullOverlay mask], NumericStorage data⟩

/-- Table row count of such a column: the null-mask length when nullable, the
storage length otherwise. -/
def tableSize (data : List Int) : Option (List Bool) → Nat
  | none => data.length
  | some mask => mask.length

/-- Whether a storage element satisfies the constraint. -/
def storageHit (c : Constraint) (data : List Int) (j : Nat) : Bool :=
  satisfiesOp c.op (data.getD j 0) c.value

/-- Modelled from the spec, for the refinement claim: the table-space row
predicate a constraint realises on such a column.  A non-null row consults the
storage element at its rank; a null row matches exactly under IS NULL. -/
def rowMatches (c : Constraint) (data : List Int) : Option (List Bool) → Nat → Bool
  | none => fun t => storageHit c data t
  | some mask => fun t =>
      if mask.getD t false then storageHit c data (rank mask t)
      else decide (FilterOpToOverlayOp c.op = OverlayOp.isNull)

theorem boundedColumnFilter_none (c : Constraint) (data : List Int) (R : RowMap) :
    QueryExecutor.BoundedColumnFilter c ⟨[], NumericStorage data⟩ R =
      RowMap.fromBitVector ((List.range data.length).map
        (fun j => decide (R.headD 0 ≤ j ∧ j < R.getLastD 0 + 1) && storageHit c data j)) := rfl

theorem mem_boundedColumnFilter_none (c : Constraint) (data : List Int) (R : RowMap) (t : Nat) :
    t ∈ QueryExecutor.BoundedColumnFilter c ⟨[], NumericStorage data⟩ R ↔
      t < data.length ∧
        (decide (R.headD 0 ≤ t ∧ t < R.getLastD 0 + 1) && storageHit c data t) = true := by
  rw [boundedColumnFilter_none, mem_fromBitVector]
  by_cases ht : t < data.length
  · simp [List.length_map, List.length_range, ht, getD_map_range _ _ _ ht]
  · simp [List.length_map, List.length_range, ht]

theorem intersect_bounded_none (c : Constraint) (data : List Int) (R : RowMap)
    (hsorted : R.Sorted (· < ·)) (hbound : ∀ x ∈ R, x < data.length) :
    RowMap.Intersect R (QueryExecutor.BoundedColumnFilter c ⟨[], NumericStorage data⟩ R) =
      R.filter (storageHit c data) := by
  rw [Intersect_eq_filter]
  apply List.filter_congr
  intro t ht
  have h1 : R.headD 0 ≤ t := sorted_headD_le R hsorted t ht
  have h2 : t ≤ R.getLastD 0 := sorted_le_getLastD R hsorted t ht
  have h3 : t < data.length := hbound t ht
  have hiff := mem_boundedColumnFilter_none c data R t
  rcases hhit : storageHit c data t
  · simp [hiff, hhit]
  · rw [decide_eq_true_iff, hiff]
    refine ⟨h3, ?_⟩
    rw [hhit, Bool.and_true, decide_eq_true_iff]
    exact ⟨h1, Nat.lt_succ_iff.mpr h2⟩

theorem indexedState_none (c : Constraint) (data : List Int) (R : RowMap) :
    (indexedState c ⟨[], NumericStorage data⟩ R).1 = R.filter (storageHit c data) := by
  rw [indexedState]
  simp only [List.foldl_nil]
  show [] ++ keepList R (R.map (fun i => satisfiesOp c.op (data.getD i 0) c.value)) =
    R.filter (storageHit c data)
  rw [List.nil_append]
  exact keepList_map (storageHit c data) R

theorem ofIndices_eq (l : List Nat) : IndexFilterHelper.ofIndices l = ⟨l, l⟩ := rfl

theorem nullOverlay_lookup (mask : List Bool) (op : OverlayOp) (idxs : List Nat) :
    (NullOverlay mask).IsStorageLookupRequired op idxs =
      idxs.map (fun i => mask.getD i false) := rfl

theorem nullOverlay_mapIdx (mask : List Bool) (idxs : List Nat) :
    (NullOverlay mask).MapToStorageIndexVector idxs = idxs.map (rank mask) := rfl

theorem nullOverlay_search (mask : List Bool) (op : OverlayOp) (idxs : List Nat) :
    (NullOverlay mask).IndexSearch op idxs = idxs.map (nullDirectHit mask op) := rfl

theorem numericStorage_search (data : List Int) (op : FilterOp) (v : Int) (idxs : List Nat) :
    (NumericStorage data).IndexSearch op v idxs =
      idxs.map (fun i => satisfiesOp op (data.getD i 0) v) := rfl

theorem rowMatches_some (c : Constraint) (data : List Int) (mask : List Bool) (t : Nat) :
    rowMatches c data (some mask) t =
      if mask.getD t false then storageHit c data (rank mask t)
      else decide (FilterOpToOverlayOp c.op = OverlayOp.isNull) := rfl

theorem rowMatches_some_true (c : Constraint) (data : List Int) (mask : List Bool) (t : Nat)
    (h : mask.getD t false = true) :
    rowMatches c data (some mask) t = storageHit c data (rank mask t) := by
  rw [rowMatches_some, h, if_pos rfl]

theorem rowMatches_some_false (c : Constraint) (data : List Int) (mask : List Bool) (t : Nat)
    (h : mask.getD t false = false) :
    rowMatches c data (some mask) t =
      decide (FilterOpToOverlayOp c.op = OverlayOp.isNull) := by
  rw [rowMatches_some, h]
  simp

theorem boundedColumnFilter_some (c : Constraint) (data : List Int) (mask : List Bool)
    (R : RowMap) :
    QueryExecutor.BoundedColumnFilter c ⟨[NullOverlay mask], NumericStorage data⟩ R =
      RowMap.fromBitVector ((List.range mask.length).map
        (fun t => if mask.getD t false
          then ((List.range data.length).map
            (fun j => decide (rank mask (R.headD 0) ≤ j ∧ j < rank mask (R.getLastD 0 + 1)) &&
              storageHit c data j)).getD (rank mask t) false
          else decide (FilterOpToOverlayOp c.op = OverlayOp.isNull))) := rfl

theorem mem_boundedColumnFilter_some (c : Constraint) (data : List Int) (mask : List Bool)
    (R : RowMap) (t : Nat) :
    t ∈ QueryExecutor.BoundedColumnFilter c ⟨[NullOverlay mask], NumericStorage data⟩ R ↔
      t < mask.length ∧
        (if mask.getD t false
          then ((List.range data.length).map
            (fun j => decide (rank mask (R.headD 0) ≤ j ∧ j < rank mask (R.getLastD 0 + 1)) &&
              storageHit c data j)).getD (rank mask t) false
          else decide (FilterOpToOverlayOp c.op = OverlayOp.isNull)) = true := by
  rw [boundedColumnFilter_some, mem_fromBitVector]
  by_cases ht : t < mask.length
  · simp only [List.length_map, List.length_range, ht, true_and]
    rw [getD_map_range _ _ _ ht]
  · simp [ht]

theorem intersect_bounded_some (c : Constraint) (data : List Int) (mask : List Bool)
    (R : RowMap) (hsorted : R.Sorted (· < ·)) (hbound : ∀ x ∈ R, x < mask.length)
    (hlen : data.length = mask.count true) :
    RowMap.Intersect R
        (QueryExecutor.BoundedColumnFilter c ⟨[NullOverlay mask], NumericStorage data⟩ R) =
      R.filter (rowMatches c data (some mask)) := by
  rw [Intersect_eq_filter]
  apply List.filter_congr
  intro t ht
  have h1 : R.headD 0 ≤ t := sorted_headD_le R hsorted t ht
  have h2 : t ≤ R.getLastD 0 := sorted_le_getLastD R hsorted t ht
  have h3 : t < mask.length := hbound t ht
  have hiff := mem_boundedColumnFilter_some c data mask R t
  rcases hmt : mask.getD t false
  · have hsel : (if mask.getD t false
        then ((List.range data.length).map
          (fun j => decide (rank mask (R.headD 0) ≤ j ∧ j < rank mask (R.getLastD 0 + 1)) &&
            storageHit c data j)).getD (rank mask t) false
        else decide (FilterOpToOverlayOp c.op = OverlayOp.isNull)) =
          decide (FilterOpToOverlayOp c.op = OverlayOp.isNull) := by
      rw [hmt]
      simp
    have hrm : rowMatches c data (some mask) t =
        decide (FilterOpToOverlayOp c.op = OverlayOp.isNull) := by
      rw [rowMatches_some, hmt]
      simp
    rw [hrm]
    rcases hop : decide (FilterOpToOverlayOp c.op = OverlayOp.isNull)
    · rw [decide_eq_false_iff_not, hiff]
      rintro ⟨-, hcontra⟩
      rw [hsel, hop] at hcontra
      simp at hcontra
    · rw [decide_eq_true_iff, hiff]
      exact ⟨h3, by rw [hsel, hop]⟩
  · have hrt : rank mask t < data.length := by
      rw [hlen]
      exact rank_lt_count mask t h3 hmt
    have hb1 : rank mask (R.headD 0) ≤ rank mask t := rank_mono mask h1
    have hb2 : rank mask t < rank mask (R.getLastD 0 + 1) := by
      have hs : rank mask (t + 1) = rank mask t + 1 := by
        rw [rank_succ mask t h3, hmt]
        simp
      have hm2 : rank mask (t + 1) ≤ rank mask (R.getLastD 0 + 1) :=
        rank_mono mask (Nat.succ_le_succ h2)
      omega
    have hsel : (if mask.getD t false
        then ((List.range data.length).map
          (fun j => decide (rank mask (R.headD 0) ≤ j ∧ j < rank mask (R.getLastD 0 + 1)) &&
            storageHit c data j)).getD (rank mask t) false
        else decide (FilterOpToOverlayOp c.op = OverlayOp.isNull)) =
          storageHit c data (rank mask t) := by
      rw [hmt, if_pos rfl, getD_map_range _ _ _ hrt, decide_eq_true ⟨hb1, hb2⟩, Bool.true_and]
    have hrm : rowMatches c data (some mask) t = storageHit c data (rank mask t) := by
      rw [rowMatches_some, hmt, if_pos rfl]
    rw [hrm]
    rcases hhit : storageHit c data (rank mask t)
    · rw [decide_eq_false_iff_not, hiff]
      rintro ⟨-, hcontra⟩
      rw [hsel, hhit] at hcontra
      simp at hcontra
    · rw [decide_eq_true_iff, hiff]
      exact ⟨h3, by rw [hsel, hhit]⟩

theorem indexedState_some_fast (c : Constraint) (data : List Int) (mask : List Bool)
    (R : RowMap) (hall : ∀ t ∈ R, mask.getD t false = true) :
    (indexedState c ⟨[NullOverlay mask], NumericStorage data⟩ R).1 =
      R.filter (fun t => storageHit c data (rank mask t)) := by
  rw [indexedState]
  simp only [List.foldl_cons, List.foldl_nil]
  rw [indexedStep]
  rw [if_pos]
  · show [] ++ keepList R ((R.map (rank mask)).map
      (fun i => satisfiesOp c.op (data.getD i 0) c.value)) = _
    rw [List.nil_append, List.map_map]
    exact keepList_map _ R
  · show (R.map (fun i => mask.getD i false)).count true =
      (R.map (fun i => mask.getD i false)).length
    rw [List.count_eq_length]
    intro b hb
    obtain ⟨t, htR, hbt⟩ := List.mem_map.mp hb
    rw [← hbt, hall t htR]

theorem indexedState_some_slow (c : Constraint) (data : List Int) (mask : List Bool)
    (R : RowMap)
    (hnotall : ¬ ((R.map (fun i => mask.getD i false)).count true =
      (R.map (fun i => mask.getD i false)).length)) :
    (indexedState c ⟨[NullOverlay mask], NumericStorage data⟩ R).1 =
      (R.filter (fun x => !(mask.getD x false))).filter
          (nullDirectHit mask (FilterOpToOverlayOp c.op)) ++
        (R.filter (fun x => mask.getD x false)).filter
          (fun t => storageHit c data (rank mask t)) := by
  rw [indexedState]
  simp only [List.foldl_cons, List.foldl_nil]
  rw [indexedStep]
  simp only [ofIndices_eq, nullOverlay_lookup]
  rw [if_neg hnotall]
  rw [Partition_map_self (fun i => mask.getD i false) R]
  simp only [IndexFilterHelper.KeepAtSet, nullOverlay_search, nullOverlay_mapIdx,
    numericStorage_search, List.nil_append, List.map_map]
  rw [keepList_map, keepList_map]
  rfl

theorem indexedState_some_perm (c : Constraint) (data : List Int) (mask : List Bool)
    (R : RowMap) :
    List.Perm (indexedState c ⟨[NullOverlay mask], NumericStorage data⟩ R).1
      (R.filter (rowMatches c data (some mask))) := by
  by_cases hall : (R.map (fun i => mask.getD i false)).count true =
      (R.map (fun i => mask.getD i false)).length
  · have hallR : ∀ t ∈ R, mask.getD t false = true := by
      intro t htR
      exact ((List.count_eq_length.mp hall) _ (List.mem_map_of_mem _ htR)).symm
    rw [indexedState_some_fast c data mask R hallR]
    have heq : R.filter (fun t => storageHit c data (rank mask t)) =
        R.filter (rowMatches c data (some mask)) :=
      List.filter_congr (fun t htR => (rowMatches_some_true c data mask t (hallR t htR)).symm)
    rw [heq]
  · rw [indexedState_some_slow c data mask R hall]
    have e1 : (R.filter (fun x => !(mask.getD x false))).filter
        (nullDirectHit mask (FilterOpToOverlayOp c.op)) =
        (R.filter (fun x => !(mask.getD x false))).filter (rowMatches c data (some mask)) := by
      apply List.filter_congr
      intro x hx
      have hmx : mask.getD x false = false := by
        have := (List.mem_filter.mp hx).2
        simpa using this
      rw [rowMatches_some_false c data mask x hmx]
      cases hop : FilterOpToOverlayOp c.op
      · show (!(mask.getD x false)) = decide (OverlayOp.isNull = OverlayOp.isNull)
        rw [hmx]
        decide
      · show mask.getD x false = decide (OverlayOp.isNotNull = OverlayOp.isNull)
        rw [hmx]
        decide
      · show (false : Bool) = decide (OverlayOp.other = OverlayOp.isNull)
        decide
    have e2 : (R.filter (fun x => mask.getD x false)).filter
        (fun t => storageHit c data (rank mask t)) =
        (R.filter (fun x => mask.getD x false)).filter (rowMatches c data (some mask)) := by
      apply List.filter_congr
      intro x hx
      have hmx : mask.getD x false = true := (List.mem_filter.mp hx).2
      rw [rowMatches_some_true c data mask x hmx]
    rw [e1, e2]
    have e3 : (R.filter (fun x => !(mask.getD x false))).filter
        (rowMatches c data (some mask)) =
        (R.filter (rowMatches c data (some mask))).filter (fun x => !(mask.getD x false)) := by
      rw [List.filter_filter, List.filter_filter]
      exact List.filter_congr (fun x _ => Bool.and_comm _ _)
    have e4 : (R.filter (fun x => mask.getD x false)).filter
        (rowMatches c data (some mask)) =
        (R.filter (rowMatches c data (some mask))).filter (fun x => mask.getD x false) := by
      rw [List.filter_filter, List.filter_filter]
      exact List.filter_congr (fun x _ => Bool.and_comm _ _)
    rw [e3, e4]
    have e5 : (R.filter (rowMatches c data (some mask))).filter
        (fun x => !(!(mask.getD x false))) =
        (R.filter (rowMatches c data (some mask))).filter (fun x => mask.getD x false) :=
      List.filter_congr (fun x _ => by simp)
    have hp := List.filter_append_perm (fun x => !(mask.getD x false))
      (R.filter (rowMatches c data (some mask)))
    rw [e5] at hp
    exact hp

/-- Claim C3: the two filter strategies agree on every eligible simple column
(the columns the legacy bridge builds: numeric storage with no overlay or one
null overlay whose storage holds exactly the non-null rows): intersecting the
bounded result into a well-formed row map gives exactly the indexed result. -/
theorem strategy_independence (c : Constraint) (data : List Int) (mopt : Option (List Bool))
    (R : RowMap) (hwf : RowMap.WellFormed R (tableSize data mopt))
    (hmask : ∀ mask, mopt = some mask → data.length = mask.count true) :
    RowMap.Intersect R (QueryExecutor.BoundedColumnFilter c (mkSimpleColumn data mopt) R) =
      QueryExecutor.IndexedColumnFilter c (mkSimpleColumn data mopt) R := by
  obtain ⟨hsorted, hbound⟩ := hwf
  have hperm : List.Perm (indexedState c (mkSimpleColumn data mopt) R).1
      (R.filter (rowMatches c data mopt)) := by
    cases mopt with
    | none =>
      show List.Perm (indexedState c ⟨[], NumericStorage data⟩ R).1
        (R.filter (rowMatches c data none))
      rw [indexedState_none]
      exact List.Perm.refl _
    | some mask => exact indexedState_some_perm c data mask R
  have hfil_sorted : (R.filter (rowMatches c data mopt)).Sorted (· ≤ ·) :=
    (hsorted.filter _).imp le_of_lt
  have hms : List.Perm (QueryExecutor.IndexedColumnFilter c (mkSimpleColumn data mopt) R)
      (R.filter (rowMatches c data mopt)) := (List.mergeSort_perm _ _).trans hperm
  have hres_sorted : (QueryExecutor.IndexedColumnFilter c (mkSimpleColumn data mopt) R).Sorted
      (· ≤ ·) := List.sorted_mergeSort' _
  have heq : QueryExecutor.IndexedColumnFilter c (mkSimpleColumn data mopt) R =
      R.filter (rowMatches c data mopt) :=
    List.eq_of_perm_of_sorted hms hres_sorted hfil_sorted
  rw [heq]
  cases mopt with
  | none => exact intersect_bounded_none c data R hsorted hbound
  | some mask => exact intersect_bounded_some c data mask R hsorted hbound (hmask mask rfl)

/-- Witness for C3 on the null-overlay column of scenario S4 with the full row
map. -/
theorem strategy_independence_witness :
    RowMap.WellFormed [0, 1, 2, 3]
      (tableSize [7, 9] (some [true, false, true, false])) ∧
    RowMap.Intersect [0, 1, 2, 3]
        (QueryExecutor.BoundedColumnFilter ⟨0, FilterOp.eq, 9, SqlType.long⟩
          (mkSimpleColumn [7, 9] (some [true, false, true, false])) [0, 1, 2, 3]) =
      QueryExecutor.IndexedColumnFilter ⟨0, FilterOp.eq, 9, SqlType.long⟩
        (mkSimpleColumn [7, 9] (some [true, false, true, false])) [0, 1, 2, 3] :=
  ⟨⟨by decide, by decide⟩,
   strategy_independence ⟨0, FilterOp.eq, 9, SqlType.long⟩ [7, 9]
     (some [true, false, true, false]) [0, 1, 2, 3] ⟨by decide, by decide⟩
     (fun mask hm => by cases hm; decide)⟩

/-! The legacy bridge (claim C8). -/

/-- Modelled from the spec: column type tags of the table layer. -/
inductive ColumnType where
  | int32 | uint32 | int64 | doubleT | stringT | dummy | idT
deriving DecidableEq, Repr

/-- Modelled from the spec: a column of the table layer as the legacy bridge
sees it: type and flags, the raw storage buffer with its null mask, the size
of its overlay row map, the SqlValue type of its payload, and the legacy
per-column FilterInto fallback. -/
structure Column where
  colType : ColumnType
  isSorted : Bool
  isDense : Bool
  isNullable : Bool
  storageData : List Int
  nullMask : List Bool
  overlayRowMapSize : Nat
  sqlType : SqlType
  FilterInto : FilterOp → Int → RowMap → RowMap

/-- Modelled from the spec: a table is its columns plus a row count. -/
structure Table where
  columns : List Column
  rowCount : Nat

/-- Placeholder column for out-of-range access (unreachable under the
in-range precondition). -/
def defaultColumn : Column :=
  ⟨ColumnType.dummy, false, false, false, [], [], 0, SqlType.nullType, fun _ _ rm => rm⟩

/-- The invalid_col_type test of QueryExecutor::FilterLegacy. -/
def invalidColType (col : Column) : Bool :=
  col.colType == ColumnType.stringT || col.colType == ColumnType.dummy ||
    col.colType == ColumnType.idT

/-- First pass of QueryExecutor::FilterLegacy: build a NumericStorage binding
unless the column type or flags disqualify the column. -/
def buildStorageFor (col : Column) : Option Storage :=
  if invalidColType col || col.isSorted || col.isDense then none
  else some (NumericStorage col.storageData)

/-- First pass of QueryExecutor::FilterLegacy: build a NullOverlay from the
null mask when a storage binding exists and the column is nullable. -/
def buildNullOverlayFor (col : Column) : Option StorageOverlay :=
  if (buildStorageFor col).isSome && col.isNullable then some (NullOverlay col.nullMask)
  else none

/-- QueryExecutor::FilterLegacy from query_executor.cc: build bindings per
column, then fold the constraints over the row map starting from the full
range, routing each constraint either to the legacy FilterInto or to the new
FilterColumn pipeline. -/
def QueryExecutor.FilterLegacy (table : Table) (cs : List Constraint) : RowMap :=
  let storages := table.columns.map buildStorageFor
  let nullOverlays := table.columns.map buildNullOverlayFor
  cs.foldl
    (fun rm c =>
      let col := table.columns.getD c.colIdx defaultColumn
      match storages.getD c.colIdx none with
      | none => col.FilterInto c.op c.value rm
      | some st =>
        if col.sqlType ≠ c.valueType ∨ col.overlayRowMapSize ≠ col.storageData.length then
          col.FilterInto c.op c.value rm
        else
          QueryExecutor.FilterColumn c ⟨(nullOverlays.getD c.colIdx none).toList, st⟩ rm)
    (List.range table.rowCount)

theorem getD_map_of_lt {α β : Type} (f : α → β) (l : List α) (n : Nat) (d : α) (db : β)
    (h : n < l.length) : (l.map f).getD n db = f (l.getD n d) := by
  rw [List.getD_eq_getElem?_getD, List.getElem?_map, List.getElem?_eq_getElem h]
  rw [List.getD_eq_getElem?_getD, List.getElem?_eq_getElem h]
  rfl

/-- Claim C8: FilterLegacy routes a constraint to the legacy per-column
FilterInto path exactly when the column type is string, dummy or id, or the
column is flagged sorted or dense, or the constraint value type mismatches the
column type, or the column has a row selector (overlay row map size different
from the storage size); every other constraint runs the new pipeline on a
NumericStorage binding, with a NullOverlay exactly when the column is
nullable. -/
theorem filterLegacy_routing (table : Table) (c : Constraint)
    (h : c.colIdx < table.columns.length) :
    QueryExecutor.FilterLegacy table [c] =
      (if (table.columns.getD c.colIdx defaultColumn).colType = ColumnType.stringT ∨
          (table.columns.getD c.colIdx defaultColumn).colType = ColumnType.dummy ∨
          (table.columns.getD c.colIdx defaultColumn).colType = ColumnType.idT ∨
          (table.columns.getD c.colIdx defaultColumn).isSorted = true ∨
          (table.columns.getD c.colIdx defaultColumn).isDense = true ∨
          (table.columns.getD c.colIdx defaultColumn).sqlType ≠ c.valueType ∨
          (table.columns.getD c.colIdx defaultColumn).overlayRowMapSize ≠
            (table.columns.getD c.colIdx defaultColumn).storageData.length
       then (table.columns.getD c.colIdx defaultColumn).FilterInto c.op c.value
          (List.range table.rowCount)
       else QueryExecutor.FilterColumn c
          ⟨if (table.columns.getD c.colIdx defaultColumn).isNullable
            then [NullOverlay (table.columns.getD c.colIdx defaultColumn).nullMask] else [],
           NumericStorage (table.columns.getD c.colIdx defaultColumn).storageData⟩
          (List.range table.rowCount)) := by
  rw [QueryExecutor.FilterLegacy]
  simp only [List.foldl_cons, List.foldl_nil]
  rw [getD_map_of_lt buildStorageFor table.columns c.colIdx defaultColumn none h]
  rw [getD_map_of_lt buildNullOverlayFor table.columns c.colIdx defaultColumn none h]
  set col := table.columns.getD c.colIdx defaultColumn with hcol
  have hdisq : (invalidColType col || col.isSorted || col.isDense) = true ↔
      (col.colType = ColumnType.stringT ∨ col.colType = ColumnType.dummy ∨
        col.colType = ColumnType.idT ∨ col.isSorted = true ∨ col.isDense = true) := by
    simp [invalidColType, or_assoc]
  by_cases h1 : (invalidColType col || col.isSorted || col.isDense) = true
  · rw [buildStorageFor, if_pos h1]
    rw [if_pos (by tauto)]
  · rw [buildStorageFor, if_neg h1]
    have h1' : ¬ (col.colType = ColumnType.stringT ∨ col.colType = ColumnType.dummy ∨
        col.colType = ColumnType.idT ∨ col.isSorted = true ∨ col.isDense = true) := by
      rw [← hdisq]
      exact h1
    show (if col.sqlType ≠ c.valueType ∨ col.overlayRowMapSize ≠ col.storageData.length then
        col.FilterInto c.op c.value (List.range table.rowCount)
      else QueryExecutor.FilterColumn c
        ⟨(buildNullOverlayFor col).toList, NumericStorage col.storageData⟩
        (List.range table.rowCount)) = _
    by_cases h2 : col.sqlType ≠ c.valueType ∨ col.overlayRowMapSize ≠ col.storageData.length
    · rw [if_pos h2, if_pos (by tauto)]
    · rw [if_neg h2, if_neg (by tauto)]
      have hov : buildNullOverlayFor col =
          if col.isNullable then some (NullOverlay col.nullMask) else none := by
        rw [buildNullOverlayFor, buildStorageFor, if_neg h1]
        cases col.isNullable <;> simp
      rw [hov]
      cases hn : col.isNullable <;> simp

/-- Sample eligible column, table, and constraint for the C8 witness. -/
def sampleColumn : Column :=
  ⟨ColumnType.int64, false, false, false, [1, 2], [], 2, SqlType.long, fun _ _ rm => rm⟩

def sampleTable : Table := ⟨[sampleColumn], 2⟩

def sampleConstraint : Constraint := ⟨0, FilterOp.gt, 1, SqlType.long⟩

/-- Witness for C8 on a concrete one-column table. -/
theorem filterLegacy_routing_witness :
    (sampleConstraint.colIdx < sampleTable.columns.length) ∧
    QueryExecutor.FilterLegacy sampleTable [sampleConstraint] =
      (if (sampleTable.columns.getD sampleConstraint.colIdx defaultColumn).colType =
            ColumnType.stringT ∨
          (sampleTable.columns.getD sampleConstraint.colIdx defaultColumn).colType =
            ColumnType.dummy ∨
          (sampleTable.columns.getD sampleConstraint.colIdx defaultColumn).colType =
            ColumnType.idT ∨
          (sampleTable.columns.getD sampleConstraint.colIdx defaultColumn).isSorted = true ∨
          (sampleTable.columns.getD sampleConstraint.colIdx defaultColumn).isDense = true ∨
          (sampleTable.columns.getD sampleConstraint.colIdx defaultColumn).sqlType ≠
            sampleConstraint.valueType ∨
          (sampleTable.columns.getD sampleConstraint.colIdx defaultColumn).overlayRowMapSize ≠
            (sampleTable.columns.getD sampleConstraint.colIdx
              defaultColumn).storageData.length
       then (sampleTable.columns.getD sampleConstraint.colIdx defaultColumn).FilterInto
          sampleConstraint.op sampleConstraint.value (List.range sampleTable.rowCount)
       else QueryExecutor.FilterColumn sampleConstraint
          ⟨if (sampleTable.columns.getD sampleConstraint.colIdx defaultColumn).isNullable
            then [NullOverlay
              (sampleTable.columns.getD sampleConstraint.colIdx defaultColumn).nullMask]
            else [],
           NumericStorage
            (sampleTable.columns.getD sampleConstraint.colIdx defaultColumn).storageData⟩
          (List.range sampleTable.rowCount)) :=
  ⟨by decide, filterLegacy_routing sampleTable sampleConstraint (by decide)⟩

end Perfetto
